import Mathlib

/-!
Shallow embedding of `prospector2html` (`src/prospector2html/prospector2html.py`)
and proofs about its normalization / filtering / snippet-extraction pipeline.

Python values that flow through the pipeline (parsed JSON records) are modelled
by the inductive type `JVal`; Python dictionaries are association lists, and
`d[k]` access that may raise `KeyError` is modelled by `Option`-valued lookup.
File-system access performed by the snippet extractor is modelled by a function
`Fs : String → Option (List String)` mapping a path to the list of lines
`readlines()` would return, or `none` when opening the file fails.
String helpers (`in`, `split`, `join`, `rstrip`, `endswith`, `<`) are embedded
as character-list computations with exactly Python's semantics, so that all
definitions evaluate inside the kernel.
-/

/-- A parsed JSON value, the shape of every record the pipeline handles. -/
inductive JVal where
  | str (s : String)
  | num (n : Int)
  | arr (elems : List JVal)
  | obj (fields : List (String × JVal))

mutual

/-- Structural (deep) equality on `JVal`, the embedding of Python `==` on
parsed JSON data. -/
def JVal.decEq : (a b : JVal) → Decidable (a = b)
  | .str a, .str b =>
    match String.decEq a b with
    | isTrue h => isTrue (by rw [h])
    | isFalse h => isFalse (by intro hh; injection hh; contradiction)
  | .str _, .num _ => isFalse (by intro h; cases h)
  | .str _, .arr _ => isFalse (by intro h; cases h)
  | .str _, .obj _ => isFalse (by intro h; cases h)
  | .num a, .num b =>
    match Int.instDecidableEq a b with
    | isTrue h => isTrue (by rw [h])
    | isFalse h => isFalse (by intro hh; injection hh; contradiction)
  | .num _, .str _ => isFalse (by intro h; cases h)
  | .num _, .arr _ => isFalse (by intro h; cases h)
  | .num _, .obj _ => isFalse (by intro h; cases h)
  | .arr a, .arr b =>
    match JVal.decEqList a b with
    | isTrue h => isTrue (by rw [h])
    | isFalse h => isFalse (by intro hh; injection hh; contradiction)
  | .arr _, .str _ => isFalse (by intro h; cases h)
  | .arr _, .num _ => isFalse (by intro h; cases h)
  | .arr _, .obj _ => isFalse (by intro h; cases h)
  | .obj a, .obj b =>
    match JVal.decEqObj a b with
    | isTrue h => isTrue (by rw [h])
    | isFalse h => isFalse (by intro hh; injection hh; contradiction)
  | .obj _, .str _ => isFalse (by intro h; cases h)
  | .obj _, .num _ => isFalse (by intro h; cases h)
  | .obj _, .arr _ => isFalse (by intro h; cases h)

def JVal.decEqList : (a b : List JVal) → Decidable (a = b)
  | [], [] => isTrue rfl
  | [], _ :: _ => isFalse (by intro h; cases h)
  | _ :: _, [] => isFalse (by intro h; cases h)
  | a :: as, b :: bs =>
    match JVal.decEq a b, JVal.decEqList as bs with
    | isTrue h1, isTrue h2 => isTrue (by rw [h1, h2])
    | isFalse _, _ => isFalse (by intro hh; injection hh; contradiction)
    | _, isFalse _ => isFalse (by intro hh; injection hh; contradiction)

def JVal.decEqObj : (a b : List (String × JVal)) → Decidable (a = b)
  | [], [] => isTrue rfl
  | [], _ :: _ => isFalse (by intro h; cases h)
  | _ :: _, [] => isFalse (by intro h; cases h)
  | (k1, v1) :: as, (k2, v2) :: bs =>
    match String.decEq k1 k2, JVal.decEq v1 v2, JVal.decEqObj as bs with
    | isTrue h1, isTrue h2, isTrue h3 => isTrue (by rw [h1, h2, h3])
    | isFalse _, _, _ =>
      isFalse (by intro hh; injection hh with hp _; injection hp; contradiction)
    | _, isFalse _, _ =>
      isFalse (by intro hh; injection hh with hp _; injection hp; contradiction)
    | _, _, isFalse _ => isFalse (by intro hh; injection hh; contradiction)

end

instance : DecidableEq JVal := JVal.decEq

/-- Dictionary access `d[k]`: `some` the stored value, `none` when the key is
absent (the Python code would raise `KeyError`) or the value is not a dict. -/
def getKey? : JVal → String → Option JVal
  | .obj fields, k => fields.lookup k
  | _, _ => none

/-- `d[k]` expected to be a string. -/
def getStr? (v : JVal) (k : String) : Option String :=
  match getKey? v k with
  | some (.str s) => some s
  | _ => none

/-- `d[k]` expected to be an integer. -/
def getInt? (v : JVal) (k : String) : Option Int :=
  match getKey? v k with
  | some (.num n) => some n
  | _ => none

/-- `d[k]` expected to be a list. -/
def getArr? (v : JVal) (k : String) : Option (List JVal) :=
  match getKey? v k with
  | some (.arr l) => some l
  | _ => none

/-- Whether a record carries key `k` at all (`k in d` in Python). -/
def hasKey (v : JVal) (k : String) : Bool :=
  (getKey? v k).isSome

/-- `needle` is a prefix of `hay` (character lists). -/
def lPfxB : List Char → List Char → Bool
  | [], _ => true
  | _ :: _, [] => false
  | a :: as, b :: bs => a == b && lPfxB as bs

/-- `needle` occurs contiguously somewhere in `hay` (character lists). -/
def occursInL (needle : List Char) : List Char → Bool
  | [] => needle.isEmpty
  | b :: bs => lPfxB needle (b :: bs) || occursInL needle bs

/-- Python's substring test `needle in hay` on strings. -/
def strOccursIn (needle hay : String) : Bool :=
  occursInL needle.toList hay.toList

/-- The mathematical statement that `needle` is a contiguous substring of
`hay`; `strOccursIn` is proved equivalent to it below. -/
def IsSubstrOf (needle hay : String) : Prop :=
  ∃ p t, hay.toList = p ++ needle.toList ++ t

/-- Python's `s.endswith(sfx)`. -/
def strEndsWith (s sfx : String) : Bool :=
  lPfxB sfx.toList.reverse s.toList.reverse

/-- Python's `s.split(c)` for a single-character separator (auxiliary). -/
def splitOnCharAux (c : Char) : List Char → List Char → List String
  | [], cur => [String.mk cur.reverse]
  | x :: xs, cur =>
    if x == c then String.mk cur.reverse :: splitOnCharAux c xs []
    else splitOnCharAux c xs (x :: cur)

/-- Python's `s.split(c)` for a single-character separator. -/
def splitOnChar (c : Char) (s : String) : List String :=
  splitOnCharAux c s.toList []

/-- Python's `sep.join(parts)`. -/
def joinSep (sep : String) : List String → String
  | [] => ""
  | [x] => x
  | x :: xs => x ++ sep ++ joinSep sep xs

/-- Python's `s.rstrip("/")`: drop all trailing slashes. -/
def rstripSlash (s : String) : String :=
  String.mk ((s.toList.reverse.dropWhile (fun c => c == '/')).reverse)

/-- Lexicographic comparison of character lists by code point. -/
def charListLt : List Char → List Char → Bool
  | [], [] => false
  | [], _ :: _ => true
  | _ :: _, [] => false
  | a :: as, b :: bs =>
    if a < b then true else if b < a then false else charListLt as bs

/-- Python's `<` on strings: lexicographic by code point. -/
def strLt (a b : String) : Bool :=
  charListLt a.toList b.toList

/-- One character of Python's `html.escape` (with its default `quote=True`). -/
def htmlEscapeChar (c : Char) : String :=
  if c == '&' then "&amp;"
  else if c == '<' then "&lt;"
  else if c == '>' then "&gt;"
  else if c == '"' then "&quot;"
  else if c == '\'' then "&#x27;"
  else String.mk [c]

/-- Python's `html.escape`. -/
def htmlEscape (s : String) : String :=
  String.join (s.toList.map htmlEscapeChar)

/-- `pathlib.Path(path).suffix.lstrip(".")`: the extension (without the dot)
of the last path component, `""` when there is none (including the
hidden-file case `".name"`). -/
def pathExt (path : String) : String :=
  let base := (splitOnChar '/' path).getLastD ""
  match splitOnChar '.' base with
  | [] => ""
  | [_] => ""
  | first :: rest =>
    if first == "" && rest.length == 1 then "" else rest.getLastD ""

/-! ## Snippet extractor (`readSnippet`, nested in `normalize_semgrep`) -/

/-- The file system as seen by the extractor: a path maps to the lines
`fp.readlines()` would return, or `none` when `open` raises. -/
abbrev Fs := String → Option (List String)

/-- `line_n = line - 5 if line > 5 else line` (source line 88): the 0-based
start offset of the extracted slice. -/
def snipStart (line : Nat) : Nat :=
  if 5 < line then line - 5 else line

/-- The numbering loop (source lines 97-99): each extracted line `l` at slice
index `idx` becomes the string `f"{idx + line_n + 1} {l}"`. -/
def numberLines (lineN : Nat) : List String → List String
  | [] => []
  | l :: rest => (toString (lineN + 1) ++ " " ++ l) :: numberLines (lineN + 1) rest

/-- `readSnippet(path, line)` (source lines 83-100): on any read failure
return `[]`; otherwise slice `lines[line_n : line_n + 11]`, replace the whole
slice by a placeholder for a `.js` file containing an over-long line, and
otherwise prefix each line with its absolute 1-based file line number. -/
def readSnippet (fs : Fs) (path : String) (line : Nat) : List String :=
  match fs path with
  | none => []
  | some fileLines =>
    let lineN := snipStart line
    let lines := (fileLines.drop lineN).take 11
    if strEndsWith path ".js" && !lines.isEmpty && lines.any (fun l => 200 < l.length) then
      ["minimized js..."]
    else
      numberLines lineN lines

/-! ## Message filters -/

/-- The two blocklists of `.prospector-html.yaml`; a missing or empty config
section is embedded as the empty list (the source treats every falsy
configuration value as "gate always passes"). -/
structure FilterConfig where
  message : List String
  message_re : List String

/-- `x['message']` of a canonical record. Every record reaching the filter
carries a `'message'` key (all three normalizer variants emit one), so the
`""` default is never exercised by the pipeline. -/
def msgField (x : JVal) : String :=
  (getStr? x "message").getD ""

/-- `filter_message_by_match` (source lines 23-26): pass unless the record's
message text is a substring (Python `in`) of some configured entry. -/
def filter_message_by_match (cfg : FilterConfig) (x : JVal) : Bool :=
  if cfg.message.isEmpty then true
  else !(cfg.message.any (fun m => strOccursIn (msgField x) m))

/-- `filter_message_by_re` (source lines 29-32); `reSearch pat s` embeds
`re.search(pat, s) is not None`. -/
def filter_message_by_re (reSearch : String → String → Bool) (cfg : FilterConfig) (x : JVal) : Bool :=
  if cfg.message_re.isEmpty then true
  else !(cfg.message_re.any (fun rre => reSearch rre (msgField x)))

/-- `filter_message` (source lines 35-36): both gates must pass. -/
def filter_message (reSearch : String → String → Bool) (cfg : FilterConfig) (x : JVal) : Bool :=
  filter_message_by_match cfg x && filter_message_by_re reSearch cfg x

/-! ## Normalizer variant A: `normalize_prospector` (source lines 39-57) -/

/-- One iteration of the `normalize_prospector` loop: every field access sits
inside the per-item `try`, so any missing key (`KeyError`) yields `none` and
the item is logged and skipped. -/
def normalize_prospector_item (item : JVal) : Option JVal := do
  let tool ← getKey? item "source"
  let code ← getKey? item "code"
  let loc ← getKey? item "location"
  let fn ← getKey? loc "function"
  let file ← getKey? loc "path"
  let line ← getKey? loc "line"
  let pos ← getKey? loc "character"
  let msg ← getKey? item "message"
  pure (JVal.obj [
    ("tool", tool),
    ("code", code),
    ("severity", .str "unknown"),
    ("confidence", .str "unknown"),
    ("function", fn),
    ("file", file),
    ("line", line),
    ("position", pos),
    ("message", msg)])

/-- `normalize_prospector`: map the per-item normalizer over the batch,
dropping the items that failed. -/
def normalize_prospector (x : List JVal) : List JVal :=
  x.filterMap normalize_prospector_item

/-! ## Normalizer variant B: `normalize_gitlab_sast` (source lines 60-78) -/

/-- One iteration of the `normalize_gitlab_sast` loop; as in variant A every
access is inside the per-item `try`. -/
def normalize_gitlab_sast_item (item : JVal) : Option JVal := do
  let scanner ← getKey? item "scanner"
  let tool ← getKey? scanner "id"
  let ids ← getArr? item "identifiers"
  let vals ← ids.mapM (fun i => getStr? i "value")
  let severity ← getKey? item "severity"
  let confidence ← getKey? item "confidence"
  let loc ← getKey? item "location"
  let file ← getKey? loc "file"
  let line ← getKey? loc "start_line"
  let msg ← getKey? item "message"
  pure (JVal.obj [
    ("tool", tool),
    ("code", .str (joinSep ", " vals)),
    ("severity", severity),
    ("confidence", confidence),
    ("function", .str "unknown"),
    ("file", file),
    ("line", line),
    ("position", .num 0),
    ("message", msg)])

/-- `normalize_gitlab_sast`. -/
def normalize_gitlab_sast (x : List JVal) : List JVal :=
  x.filterMap normalize_gitlab_sast_item

/-! ## Normalizer variant C: `normalize_semgrep` (source lines 82-132) -/

/-- A `KeyError` that is NOT caught by the per-item handler: `some` continues,
`none` raises `k` out of `normalize_semgrep`. -/
def orKeyError {α : Type} (o : Option α) (k : String) : Except String α :=
  match o with
  | some a => pure a
  | none => throw k

/-- One iteration of the `normalize_semgrep` loop (source lines 104-130).
Source lines 105-118 run OUTSIDE the `try` that starts at line 119, so a key
missing there (`path`, `start`, `line`, `extra`, `metadata`, `impact`,
`severity`, `confidence`) raises past the function's boundary
(`Except.error`); only the accesses inside the `try` (`check_id`, `col`,
the `extra['message']`) are caught, logged, and skipped (`Except.ok none`). -/
def normalize_semgrep_item (fs : Fs) (url sha : String) (item : JVal) :
    Except String (Option JVal) := do
  let path ← orKeyError (getStr? item "path") "path"
  let start ← orKeyError (getKey? item "start") "start"
  let startLine ← orKeyError (getInt? start "line") "line"
  let snippet := readSnippet fs path startLine.toNat
  let code0 := String.join snippet
  let extra ← orKeyError (getKey? item "extra") "extra"
  let metadata ← orKeyError (getKey? extra "metadata") "metadata"
  let impact ← orKeyError (getStr? metadata "impact") "impact"
  let severity ← orKeyError (getStr? extra "severity") "severity"
  let confidence ← orKeyError (getStr? metadata "confidence") "confidence"
  let ext := pathExt path
  let html_class := if ["php", "js", "yaml", "java", "html"].contains ext then "language-" ++ ext else ""
  let code := if ext == "html" then htmlEscape code0 else code0
  match (do
    let check_id ← getStr? item "check_id"
    let col ← getInt? start "col"
    let message ← getStr? extra "message"
    pure (JVal.obj [
      ("code", .str (joinSep " . " (splitOnChar '.' check_id))),
      ("impact", .str ("<div class=\"data\" data-impact=\"" ++ impact ++ "\"><span class=\"badge\">" ++ impact ++ "</span></div>")),
      ("severity", .str ("<div class=\"data\" data-severity=\"" ++ severity ++ "\"><span class=\"badge\">" ++ severity ++ "</span></div>")),
      ("confidence", .str ("<div class=\"data\" data-confidence=\"" ++ confidence ++ "\" ><span class=\"badge \">" ++ confidence ++ "</span></div>")),
      ("file", .str ("<a target=\"_blank\" href=\"" ++ url ++ "/blob/" ++ sha ++ "/" ++ path ++ "#L" ++ toString startLine ++ "\">" ++ joinSep " / " (splitOnChar '/' path) ++ "</a>")),
      ("message", .str message),
      ("snippet", .str ("<pre>line: " ++ toString startLine ++ ", pos: " ++ toString col ++ " <code class=\"" ++ html_class ++ "\">" ++ code ++ "</code></pre>"))
      ]) : Option JVal) with
  | some v => pure (some v)
  | none => pure none

/-- The `normalize_semgrep` loop over the batch: an uncaught `KeyError` on any
item aborts the whole call; caught failures just drop their item. -/
def normalize_semgrep_list (fs : Fs) (url sha : String) : List JVal → Except String (List JVal)
  | [] => pure []
  | item :: rest => do
    let r ← normalize_semgrep_item fs url sha item
    let rs ← normalize_semgrep_list fs url sha rest
    pure (match r with | some v => v :: rs | none => rs)

/-- `normalize_semgrep(args, x)`: `url = args.repository_url.rstrip("/")`
(source line 103), then the per-item loop. -/
def normalize_semgrep (fs : Fs) (repository_url sha : String) (x : List JVal) :
    Except String (List JVal) :=
  normalize_semgrep_list fs (rstripSlash repository_url) sha x

/-! ## Deduplication and the `main` pipeline (source lines 139-575) -/

/-- The deduplication loop of `main` (source lines 193-196): keep an item iff
it is not structurally equal (`==`, deep equality) to an earlier kept one.
(`dict(msg)` is a copy that compares equal to `msg`.) -/
def dedupe (msgs : List JVal) : List JVal :=
  msgs.foldl (fun acc msg => if msg ∈ acc then acc else acc ++ [msg]) []

/-- The `--filter` choices (source lines 151-152). -/
inductive FilterKind where
  | none
  | prospector
  | semgrep
  | gitlabSast

/-- The command-line inputs the pipeline core reads. -/
structure Args where
  filter : FilterKind
  repository_url : String
  sha : Option String
  zero_exit : Bool

/-- The argparse default of `--repository-url` (source line 154). -/
def defaultRepositoryUrl : String := "https://github.com"

/-- How the omitted `sha` renders inside Variant C's f-string (`str(None)`). -/
def shaToStr : Option String → String
  | Option.none => "None"
  | some s => s

/-- Python truthiness of the optional `sha` string (`not args.sha`). -/
def pyTruthy : Option String → Bool
  | Option.none => false
  | some s => s != ""

/-- Observable outcome of one run of `main` past the input-loading stage:
an early `return` before record processing, an uncaught exception, or a
report handed to the assembler together with the final exit code. -/
inductive RunResult where
  | earlyExit (code : Nat)
  | crashed (err : String)
  | report (data : List JVal) (code : Nat)

/-- The normalization dispatch of `main` (source lines 198-206). -/
def normStage (fs : Fs) (args : Args) (dd : List JVal) : Except String (List JVal) :=
  match args.filter with
  | .gitlabSast => pure (normalize_gitlab_sast dd)
  | .semgrep => normalize_semgrep fs args.repository_url (shaToStr args.sha) dd
  | .prospector => pure (normalize_prospector dd)
  | .none => pure dd

/-- The record-processing core of `main` (source lines 189-209 and 564-575):
the sha precondition check (`return 1`), then deduplication, normalization,
filtering, and the final exit code (`1` when findings remain, `0` otherwise,
forced to `0` by `--zero-exit`). `msgs` is the selected top-level array of
the input document; `reSearch` embeds `re.search`. -/
def runPipeline (fs : Fs) (reSearch : String → String → Bool) (cfg : FilterConfig)
    (args : Args) (msgs : List JVal) : RunResult :=
  if args.repository_url != "" && !pyTruthy args.sha then
    .earlyExit 1
  else
    match normStage fs args (dedupe msgs) with
    | .error e => .crashed e
    | .ok normd =>
      let filtered := normd.filter (filter_message reSearch cfg)
      .report filtered (if args.zero_exit then 0 else if filtered.isEmpty then 0 else 1)

/-- The files of the report records, for stating ordering properties. -/
def filesOf (r : RunResult) : List (Option String) :=
  match r with
  | .report out _ => out.map (fun o => getStr? o "file")
  | _ => []

/-! ## Concrete fixtures used by the example runs -/

/-- A file system with no readable file at all. -/
def noFs : Fs := fun _ => Option.none

/-- A 12-line file for exercising the window arithmetic. -/
def c2wLines : List String :=
  ["l1", "l2", "l3", "l4", "l5", "l6", "l7", "l8", "l9", "l10", "l11", "l12"]

/-- File system with the 12-line file at a fixed path. -/
def c2wFs : Fs := fun p => if p == "lib/util.py" then some c2wLines else Option.none

/-- A 4-line file for the small-line-number case. -/
def c2cLines : List String := ["alpha", "bravo", "charlie", "delta"]

/-- File system with the 4-line file at a fixed path. -/
def c2cFs : Fs := fun p => if p == "app.py" then some c2cLines else Option.none

/-- A minified-looking line of 201 characters. -/
def longJsLine : String := String.mk (List.replicate 201 'x')

/-- A bundle file containing the over-long line. -/
def jsLines : List String := ["var a;", longJsLine, "var b;"]

/-- File system with the bundle file at a fixed path. -/
def jsFs : Fs := fun p => if p == "dist/bundle.js" then some jsLines else Option.none

/-- A fully-formed aggregator (prospector) raw finding. -/
def prosItem (file : String) (line : Int) (msg : String) : JVal := JVal.obj [
  ("source", JVal.str "pylint"),
  ("code", JVal.str "C0114"),
  ("location", JVal.obj [
    ("function", JVal.str "main"),
    ("path", JVal.str file),
    ("line", JVal.num line),
    ("character", JVal.num 0)]),
  ("message", JVal.str msg)]

/-- The default (absent) filter configuration: both blocklists empty. -/
def emptyCfg : FilterConfig := FilterConfig.mk [] []

/-- A regular-expression engine that never matches (no pattern is configured
in the runs below, so it is never consulted). -/
def noRe : String → String → Bool := fun _ _ => false

/-- A pattern-scanner (semgrep) raw finding lacking the required `path` key
(all other commonly present keys may be there; `check_id` is). -/
def semgrepNoPathItem : JVal := JVal.obj [("check_id", JVal.str "rule.id")]

/-- A fully-formed pattern-scanner (semgrep) raw finding. -/
def semgrepGoodItem : JVal := JVal.obj [
  ("check_id", JVal.str "python.lang.rule"),
  ("path", JVal.str "src/app.py"),
  ("start", JVal.obj [("line", JVal.num 10), ("col", JVal.num 2)]),
  ("extra", JVal.obj [
    ("message", JVal.str "something bad"),
    ("severity", JVal.str "ERROR"),
    ("metadata", JVal.obj [
      ("impact", JVal.str "HIGH"),
      ("confidence", JVal.str "HIGH")])])]

/-- A fully-formed generic-SAST (gitlab-sast) raw finding. -/
def gitlabItem : JVal := JVal.obj [
  ("scanner", JVal.obj [("id", JVal.str "bandit")]),
  ("identifiers", JVal.arr [
    JVal.obj [("value", JVal.str "B101")],
    JVal.obj [("value", JVal.str "CWE-89")]]),
  ("severity", JVal.str "High"),
  ("confidence", JVal.str "Medium"),
  ("location", JVal.obj [("file", JVal.str "x.py"), ("start_line", JVal.num 4)]),
  ("message", JVal.str "assert used")]

/-- The nine fields of a Canonical Finding record. -/
def canonicalFields : List String :=
  ["tool", "code", "severity", "confidence", "function", "file", "line", "position", "message"]

/-! ## Properties of deduplication -/

/-- The dedup loop only ever appends: its result is its accumulator followed
by a subsequence of the remaining input. -/
theorem dedupe_loop_extra (msgs : List JVal) : ∀ acc : List JVal,
    ∃ extra, List.foldl (fun acc msg => if msg ∈ acc then acc else acc ++ [msg]) acc msgs
      = acc ++ extra ∧ List.Sublist extra msgs := by
  induction msgs with
  | nil => exact fun acc => ⟨[], by simp, List.Sublist.refl []⟩
  | cons m rest ih =>
    intro acc
    by_cases hm : m ∈ acc
    · obtain ⟨e, he, hs⟩ := ih acc
      exact ⟨e, by simpa [hm] using he, hs.cons m⟩
    · obtain ⟨e, he, hs⟩ := ih (acc ++ [m])
      refine ⟨m :: e, ?_, hs.cons₂ m⟩
      simpa [hm, List.append_assoc] using he

/-- The dedup loop keeps the accumulator duplicate-free. -/
theorem dedupe_loop_nodup (msgs : List JVal) : ∀ acc : List JVal, acc.Nodup →
    (List.foldl (fun acc msg => if msg ∈ acc then acc else acc ++ [msg]) acc msgs).Nodup := by
  induction msgs with
  | nil => intro acc h; simpa using h
  | cons m rest ih =>
    intro acc h
    by_cases hm : m ∈ acc
    · simpa [hm] using ih acc h
    · have hacc : (acc ++ [m]).Nodup := by
        refine List.nodup_append.mpr ⟨h, List.nodup_singleton m, ?_⟩
        intro a ha hb
        have : a = m := by simpa using hb
        exact hm (this ▸ ha)
      simpa [hm] using ih (acc ++ [m]) hacc

/-- Feeding the loop a duplicate-free batch of records none of which is
already accumulated just appends the batch. -/
theorem dedupe_loop_all_new (msgs : List JVal) : ∀ acc : List JVal, msgs.Nodup →
    (∀ m ∈ msgs, m ∉ acc) →
    List.foldl (fun acc msg => if msg ∈ acc then acc else acc ++ [msg]) acc msgs
      = acc ++ msgs := by
  induction msgs with
  | nil => intro acc _ _; simp
  | cons m rest ih =>
    intro acc hnd hnew
    have hm : m ∉ acc := hnew m (by simp)
    have hndr : rest.Nodup := by
      simpa using hnd.sublist (List.sublist_cons_self m rest)
    have hmr : m ∉ rest := by
      intro hc
      exact (List.nodup_cons.mp hnd).1 hc
    have hnew' : ∀ a ∈ rest, a ∉ acc ++ [m] := by
      intro a ha
      simp only [List.mem_append, List.mem_singleton]
      rintro (h1 | h2)
      · exact hnew a (by simp [ha]) h1
      · exact hmr (h2 ▸ ha)
    have := ih (acc ++ [m]) hndr hnew'
    simpa [hm, List.append_assoc] using this

/-- A duplicate-free sequence is a fixed point of `dedupe`. -/
theorem dedupe_of_nodup (msgs : List JVal) (h : msgs.Nodup) : dedupe msgs = msgs := by
  have := dedupe_loop_all_new msgs [] h (by simp)
  simpa [dedupe] using this

/-- C7: For every sequence of Raw Finding records, deduplication returns a
subsequence of the input (hence preserving original relative order), contains
no two structurally equal records, and is idempotent: deduplicating its own
output yields the same sequence. -/
theorem dedupe_sublist_nodup_idempotent (msgs : List JVal) :
    List.Sublist (dedupe msgs) msgs ∧ (dedupe msgs).Nodup ∧
      dedupe (dedupe msgs) = dedupe msgs := by
  have hnd : (dedupe msgs).Nodup := by
    simpa [dedupe] using dedupe_loop_nodup msgs [] List.nodup_nil
  refine ⟨?_, hnd, dedupe_of_nodup _ hnd⟩
  obtain ⟨e, he, hs⟩ := dedupe_loop_extra msgs []
  simpa [dedupe, he] using hs

/-! ## Properties of the substring gate -/

/-- `lPfxB` decides list prefixhood. -/
theorem lPfxB_iff : ∀ (n h : List Char), lPfxB n h = true ↔ ∃ t, h = n ++ t := by
  intro n
  induction n with
  | nil => intro h; simp [lPfxB]
  | cons a as ih =>
    intro h
    cases h with
    | nil =>
      simp [lPfxB]
    | cons b bs =>
      simp only [lPfxB, Bool.and_eq_true, beq_iff_eq, ih bs]
      constructor
      · rintro ⟨rfl, t, rfl⟩
        exact ⟨t, rfl⟩
      · rintro ⟨t, ht⟩
        injection ht with h1 h2
        exact ⟨h1.symm, t, h2⟩

/-- `occursInL` decides contiguous-substring occurrence. -/
theorem occursInL_iff : ∀ (h n : List Char),
    occursInL n h = true ↔ ∃ p t, h = p ++ n ++ t := by
  intro h
  induction h with
  | nil =>
    intro n
    simp only [occursInL, List.isEmpty_iff]
    constructor
    · rintro rfl; exact ⟨[], [], rfl⟩
    · rintro ⟨p, t, ht⟩
      rcases List.append_eq_nil.mp (List.append_eq_nil.mp ht.symm).1 with ⟨-, h2⟩
      exact h2
  | cons b bs ih =>
    intro n
    simp only [occursInL, Bool.or_eq_true, lPfxB_iff, ih]
    constructor
    · rintro (⟨t, ht⟩ | ⟨p, t, ht⟩)
      · exact ⟨[], t, by simpa using ht⟩
      · exact ⟨b :: p, t, by simp [ht]⟩
    · rintro ⟨p, t, ht⟩
      cases p with
      | nil => exact Or.inl ⟨t, by simpa using ht⟩
      | cons p0 ps =>
        injection ht with h1 h2
        exact Or.inr ⟨ps, t, h2⟩

/-- `strOccursIn` (the embedding of Python `needle in hay`) is exactly
contiguous-substring occurrence. -/
theorem strOccursIn_iff (needle hay : String) :
    strOccursIn needle hay = true ↔ IsSubstrOf needle hay := by
  simpa [strOccursIn, IsSubstrOf] using occursInL_iff hay.toList needle.toList

/-- C3: The substring gate rejects a record exactly when the record's message
text occurs as a substring of some configured blocklist entry (the
configured-entry-contains-message direction); in particular the entry
"deprecated API usage in legacy module" drops the message
"deprecated API usage" but not "new deprecated API usage warning". -/
theorem filter_message_by_match_substring_direction :
    (∀ (cfg : FilterConfig) (x : JVal),
       filter_message_by_match cfg x = false ↔ ∃ m ∈ cfg.message, IsSubstrOf (msgField x) m)
    ∧ filter_message_by_match ⟨["deprecated API usage in legacy module"], []⟩
        (JVal.obj [("message", JVal.str "deprecated API usage")]) = false
    ∧ filter_message_by_match ⟨["deprecated API usage in legacy module"], []⟩
        (JVal.obj [("message", JVal.str "new deprecated API usage warning")]) = true := by
  refine ⟨?_, by decide, by decide⟩
  intro cfg x
  unfold filter_message_by_match
  by_cases hc : cfg.message.isEmpty
  · have he : cfg.message = [] := List.isEmpty_iff.mp hc
    simp [hc, he]
  · rw [if_neg hc]
    simp [List.any_eq_true, strOccursIn_iff]

/-! ## Properties of the snippet extractor -/

/-- C8: any failure to open or read the file yields the empty sequence; the
extractor is a total function, so nothing propagates to its caller. -/
theorem readSnippet_failure_empty (fs : Fs) (path : String) (line : Nat)
    (h : fs path = Option.none) : readSnippet fs path line = [] := by
  simp [readSnippet, h]

/-- Witness for C8 at a concrete nonexistent path. -/
theorem readSnippet_failure_empty_witness :
    readSnippet noFs "no/such/file.py" 10 = [] :=
  readSnippet_failure_empty noFs "no/such/file.py" 10 rfl

/-- The numbering loop preserves the number of lines. -/
theorem numberLines_length : ∀ (w : List String) (n : Nat),
    (numberLines n w).length = w.length
  | [], _ => rfl
  | _ :: rest, n => by
    simp [numberLines, numberLines_length rest (n + 1)]

/-- The `k`-th numbered line is the `k`-th input line prefixed with the
absolute number `n + k + 1`. -/
theorem numberLines_getElem? : ∀ (w : List String) (n k : Nat),
    (numberLines n w)[k]? = (w[k]?).map (fun l => toString (n + k + 1) ++ " " ++ l)
  | [], n, k => by simp [numberLines]
  | l :: rest, n, 0 => by simp [numberLines]
  | l :: rest, n, k + 1 => by
    have harith : n + 1 + k + 1 = n + (k + 1) + 1 := by omega
    simp only [numberLines, List.getElem?_cons_succ,
      numberLines_getElem? rest (n + 1) k, harith]

/-- C2 (amended): when the minified-file placeholder does not fire, the
extractor returns at most 11 lines; the window's 1-based start is `L - 4`
for `L > 5` but `L + 1` (not `L` itself) for `L ≤ 5`; and the `k`-th
returned entry is the file's absolute line `snipStart L + k + 1` prefixed
to exactly that file line's text. -/
theorem readSnippet_window (fs : Fs) (path : String) (ls : List String) (L k : Nat)
    (hfs : fs path = some ls)
    (hnm : (strEndsWith path ".js" && !((ls.drop (snipStart L)).take 11).isEmpty
             && ((ls.drop (snipStart L)).take 11).any (fun l => 200 < l.length)) = false)
    (hk : k < (readSnippet fs path L).length) :
    (readSnippet fs path L).length ≤ 11 ∧
    (5 < L → snipStart L + 1 = L - 4) ∧
    (L ≤ 5 → snipStart L + 1 = L + 1) ∧
    ∃ l, ls[snipStart L + k]? = some l ∧
      (readSnippet fs path L)[k]? = some (toString (snipStart L + k + 1) ++ " " ++ l) := by
  have hrs : readSnippet fs path L
      = numberLines (snipStart L) ((ls.drop (snipStart L)).take 11) := by
    simp only [readSnippet, hfs, hnm, Bool.false_eq_true, if_false]
  rw [hrs] at hk ⊢
  have hwl : k < ((ls.drop (snipStart L)).take 11).length := by
    rwa [numberLines_length] at hk
  have hk11 : k < 11 := lt_of_lt_of_le hwl (List.length_take_le _ _)
  refine ⟨?_, ?_, ?_, ?_⟩
  · rw [numberLines_length]
    exact List.length_take_le _ _
  · intro h5
    simp only [snipStart, if_pos h5]
    omega
  · intro h5
    have hn : ¬ 5 < L := by omega
    simp [snipStart, if_neg hn]
  · have heq : ((ls.drop (snipStart L)).take 11)[k]? = ls[snipStart L + k]? := by
      rw [List.getElem?_take_of_lt hk11, List.getElem?_drop]
    obtain ⟨l, hl⟩ : ∃ l, ((ls.drop (snipStart L)).take 11)[k]? = some l :=
      ⟨_, List.getElem?_eq_getElem hwl⟩
    refine ⟨l, by rw [← heq]; exact hl, ?_⟩
    rw [numberLines_getElem?, hl]
    rfl

/-- Witness for C2 (amended) at path "lib/util.py", target line 7, entry 0:
the window starts at absolute line 3 = 7 - 4 and carries the file's text. -/
theorem readSnippet_window_witness :
    (readSnippet c2wFs "lib/util.py" 7).length ≤ 11 ∧
    (5 < 7 → snipStart 7 + 1 = 7 - 4) ∧
    (7 ≤ 5 → snipStart 7 + 1 = 7 + 1) ∧
    ∃ l, c2wLines[snipStart 7 + 0]? = some l ∧
      (readSnippet c2wFs "lib/util.py" 7)[0]? = some (toString (snipStart 7 + 0 + 1) ++ " " ++ l) :=
  readSnippet_window c2wFs "lib/util.py" c2wLines 7 0 rfl (by decide) (by decide)

/-- C2 (counterexample): for target line 2 — within the first few lines — the
returned window starts at absolute line 3, not at line 2 itself: the first
entry is line 3's text, and line 2 ("bravo") never appears. -/
theorem readSnippet_small_line_counterexample :
    readSnippet c2cFs "app.py" 2 = ["3 charlie", "4 delta"] ∧
    (readSnippet c2cFs "app.py" 2)[0]? ≠ some ("2 " ++ "bravo") := by
  exact ⟨by decide, by decide⟩

/-- C9: for a `.js` file whose extracted window contains a line longer than
200 characters, the result is exactly the single placeholder entry; a window
with no over-long line is returned in full (every line kept, in order, each
prefixed with its absolute number — no placeholder substitution). -/
theorem readSnippet_minified_placeholder (fs : Fs) (path : String) (ls : List String) (L : Nat)
    (hfs : fs path = some ls) :
    (strEndsWith path ".js" = true →
      (∃ l ∈ (ls.drop (snipStart L)).take 11, 200 < l.length) →
      readSnippet fs path L = ["minimized js..."]) ∧
    ((∀ l ∈ (ls.drop (snipStart L)).take 11, l.length ≤ 200) →
      readSnippet fs path L = numberLines (snipStart L) ((ls.drop (snipStart L)).take 11)) := by
  constructor
  · intro hjs hex
    obtain ⟨l, hl, hlen⟩ := hex
    have hne : ((ls.drop (snipStart L)).take 11).isEmpty = false := by
      obtain ⟨w, ws, hw⟩ := List.exists_cons_of_ne_nil (List.ne_nil_of_mem hl)
      rw [hw]
      rfl
    have hany : ((ls.drop (snipStart L)).take 11).any (fun l => 200 < l.length) = true :=
      List.any_eq_true.mpr ⟨l, hl, by simpa using hlen⟩
    simp [readSnippet, hfs, hjs, hne, hany]
  · intro hall
    have hany : ((ls.drop (snipStart L)).take 11).any (fun l => 200 < l.length) = false := by
      rw [Bool.eq_false_iff]
      intro hc
      obtain ⟨l, hl, hlen⟩ := List.any_eq_true.mp hc
      have := hall l hl
      simp at hlen
      omega
    simp [readSnippet, hfs, hany]

set_option maxRecDepth 4000 in
/-- Witness for C9: the snippet for the bundle file collapses to the single
placeholder entry. -/
theorem readSnippet_minified_placeholder_witness :
    readSnippet jsFs "dist/bundle.js" 6 = ["minimized js..."] := by
  have h := readSnippet_minified_placeholder jsFs "dist/bundle.js" jsLines 6 rfl
  exact h.1 (by decide) ⟨longJsLine, by decide, by decide⟩

/-! ## Properties of the normalizers and the pipeline -/

/-- Inversion of `Except` bind at an `ok` result. -/
theorem except_bind_eq_ok {ε α β : Type} (x : Except ε α) (f : α → Except ε β) (b : β) :
    (x >>= f = Except.ok b) ↔ ∃ a, x = Except.ok a ∧ f a = Except.ok b := by
  cases x <;> simp [Except.bind, bind]

/-- `orKeyError` succeeds exactly when the key was present. -/
theorem orKeyError_eq_ok {α : Type} (o : Option α) (k : String) (a : α) :
    orKeyError o k = Except.ok a ↔ o = some a := by
  cases o <;> simp [orKeyError, pure, Except.pure, throw, throwThe, MonadExceptOf.throw]

/-- C1: the Variant C (semgrep) normalizer raises past its own boundary: a
record missing the required `path` key makes the whole call fail with the
uncaught `KeyError` instead of logging, skipping, and returning a result
list — even when a fully-formed record follows in the batch. -/
theorem normalize_semgrep_missing_path_raises :
    normalize_semgrep noFs defaultRepositoryUrl "abc" [semgrepNoPathItem] = Except.error "path" ∧
    normalize_semgrep noFs defaultRepositoryUrl "abc" [semgrepNoPathItem, semgrepGoodItem]
      = Except.error "path" := by
  exact ⟨rfl, rfl⟩

/-- C4 (counterexample): a fully-formed semgrep record normalizes
successfully, yet the output record carries NO `tool` field at all — the
pattern-scanner variant does not emit the full Canonical Finding schema. -/
theorem normalize_semgrep_output_lacks_tool :
    (normalize_semgrep noFs defaultRepositoryUrl "abc" [semgrepGoodItem]).map
      (fun l => l.map (fun o => hasKey o "tool")) = Except.ok [false] := by
  rfl

/-- C4 (amended): with all required fields present, the aggregator and
generic-SAST variants emit a defined value for every Canonical Finding field
(with the `"unknown"` sentinel, and `0` for the missing column); the
pattern-scanner variant instead emits exactly the keys `code`, `impact`,
`severity`, `confidence`, `file`, `message`, `snippet` and omits `tool`,
`function`, `line` and `position`. -/
theorem normalizer_outputs_all_fields_defined
    (itemP outP itemG outG : JVal) (fs : Fs) (url sha : String) (itemS outS : JVal)
    (hP : normalize_prospector_item itemP = some outP)
    (hG : normalize_gitlab_sast_item itemG = some outG)
    (hS : normalize_semgrep_item fs url sha itemS = Except.ok (some outS)) :
    (canonicalFields.all (fun k => hasKey outP k) = true ∧
      getKey? outP "severity" = some (JVal.str "unknown") ∧
      getKey? outP "confidence" = some (JVal.str "unknown")) ∧
    (canonicalFields.all (fun k => hasKey outG k) = true ∧
      getKey? outG "function" = some (JVal.str "unknown") ∧
      getKey? outG "position" = some (JVal.num 0)) ∧
    (["code", "impact", "severity", "confidence", "file", "message", "snippet"].all
        (fun k => hasKey outS k) = true ∧
      hasKey outS "tool" = false ∧ hasKey outS "function" = false ∧
      hasKey outS "line" = false ∧ hasKey outS "position" = false) := by
  refine ⟨?_, ?_, ?_⟩
  · rw [normalize_prospector_item] at hP
    simp only [bind, Option.bind_eq_some, Option.pure_def, Option.some.injEq] at hP
    obtain ⟨tool, h1, code, h2, loc, h3, fn, h4, file, h5, line, h6, pos, h7, msg, h8, hout⟩ := hP
    subst hout
    exact ⟨rfl, rfl, rfl⟩
  · rw [normalize_gitlab_sast_item] at hG
    simp only [bind, Option.bind_eq_some, Option.pure_def, Option.some.injEq] at hG
    obtain ⟨scanner, h1, tool, h2, ids, h3, vals, h4, sev, h5, conf, h6, loc, h7,
      file, h8, line, h9, msg, h10, hout⟩ := hG
    subst hout
    exact ⟨rfl, rfl, rfl⟩
  · rw [normalize_semgrep_item] at hS
    simp only [except_bind_eq_ok, orKeyError_eq_ok] at hS
    obtain ⟨path, h1, start, h2, startLine, h3, extra, h4, metadata, h5, impact, h6,
      severity, h7, confidence, h8, h9⟩ := hS
    split at h9
    case _ v hX =>
      simp only [pure, Except.pure, Except.ok.injEq, Option.some.injEq] at h9
      subst h9
      simp only [bind, Option.bind_eq_some, Option.pure_def, Option.some.injEq] at hX
      obtain ⟨check_id, hc1, col, hc2, msg, hc3, hv⟩ := hX
      subst hv
      exact ⟨rfl, rfl, rfl, rfl, rfl⟩
    case _ hX =>
      simp [pure, Except.pure] at h9

/-- Witness for C4 (amended): all three hypotheses hold at fully-formed
concrete records, and the conclusion follows for their outputs. -/
theorem normalizer_outputs_all_fields_defined_witness :
    ∃ outP outG outS,
      normalize_prospector_item (prosItem "a.py" 3 "bad") = some outP ∧
      normalize_gitlab_sast_item gitlabItem = some outG ∧
      normalize_semgrep_item noFs defaultRepositoryUrl "abc" semgrepGoodItem
        = Except.ok (some outS) ∧
      ((canonicalFields.all (fun k => hasKey outP k) = true ∧
        getKey? outP "severity" = some (JVal.str "unknown") ∧
        getKey? outP "confidence" = some (JVal.str "unknown")) ∧
      (canonicalFields.all (fun k => hasKey outG k) = true ∧
        getKey? outG "function" = some (JVal.str "unknown") ∧
        getKey? outG "position" = some (JVal.num 0)) ∧
      (["code", "impact", "severity", "confidence", "file", "message", "snippet"].all
          (fun k => hasKey outS k) = true ∧
        hasKey outS "tool" = false ∧ hasKey outS "function" = false ∧
        hasKey outS "line" = false ∧ hasKey outS "position" = false)) := by
  refine ⟨_, _, _, rfl, rfl, rfl,
    normalizer_outputs_all_fields_defined (prosItem "a.py" 3 "bad") _ gitlabItem _
      noFs defaultRepositoryUrl "abc" semgrepGoodItem _ rfl rfl rfl⟩

/-- C5 (counterexample): omitting the sha makes the run stop with exit
code 1 — but a completed run with findings remaining ALSO exits with code 1,
so the two exit signals are not distinct. -/
theorem missing_sha_exit_code_not_distinct :
    runPipeline noFs noRe emptyCfg
      (Args.mk FilterKind.prospector defaultRepositoryUrl Option.none false)
      [prosItem "a.py" 3 "bad"] = RunResult.earlyExit 1 ∧
    (∃ out, runPipeline noFs noRe emptyCfg
      (Args.mk FilterKind.prospector defaultRepositoryUrl (some "abc") false)
      [prosItem "a.py" 3 "bad"] = RunResult.report out 1) := by
  exact ⟨rfl, ⟨_, rfl⟩⟩

/-- C5 (amended): when a repository URL is set and the sha is absent (or
empty), the pipeline refuses to proceed before any per-record processing —
the result is `earlyExit 1` for every input batch, the same exit code 1 that
a completed run with remaining findings produces. -/
theorem missing_sha_early_exit (fs : Fs) (reSearch : String → String → Bool)
    (cfg : FilterConfig) (args : Args) (msgs : List JVal)
    (hurl : args.repository_url ≠ "") (hsha : pyTruthy args.sha = false) :
    runPipeline fs reSearch cfg args msgs = RunResult.earlyExit 1 := by
  have hb : (args.repository_url != "") = true := by
    simpa [bne_iff_ne] using hurl
  simp [runPipeline, hb, hsha]

/-- Witness for C5 (amended) at a concrete argument vector. -/
theorem missing_sha_early_exit_witness :
    runPipeline noFs noRe emptyCfg
      (Args.mk FilterKind.semgrep defaultRepositoryUrl Option.none false)
      [semgrepNoPathItem] = RunResult.earlyExit 1 :=
  missing_sha_early_exit noFs noRe emptyCfg
    (Args.mk FilterKind.semgrep defaultRepositoryUrl Option.none false)
    [semgrepNoPathItem] (by decide) rfl

/-- C6 (counterexample): the pipeline performs no (file, line) sort — two
aggregator findings arriving as `b.py` before `a.py` are handed to the
report in that same order, so the adjacent pair violates the claimed
ascending order (`"b.py" < "a.py"` is false and the files differ). -/
theorem pipeline_output_not_sorted :
    filesOf (runPipeline noFs noRe emptyCfg
      (Args.mk FilterKind.prospector defaultRepositoryUrl (some "abc") false)
      [prosItem "b.py" 1 "m1", prosItem "a.py" 1 "m2"])
      = [some "b.py", some "a.py"] ∧
    strLt "b.py" "a.py" = false ∧ "b.py" ≠ "a.py" := by
  exact ⟨rfl, by decide, by decide⟩

/-- C6 (amended): the sequence handed to the Report Assembler is the
normalization stage's output with the filtered records removed — a
subsequence preserving the normalizer's (filter-time) order; no re-sorting
by (file, line) takes place. -/
theorem pipeline_output_sublist_of_norm (fs : Fs) (reSearch : String → String → Bool)
    (cfg : FilterConfig) (args : Args) (msgs : List JVal) (out : List JVal) (c : Nat)
    (h : runPipeline fs reSearch cfg args msgs = RunResult.report out c) :
    ∃ normd, normStage fs args (dedupe msgs) = Except.ok normd ∧ List.Sublist out normd := by
  unfold runPipeline at h
  by_cases hc : (args.repository_url != "" && !pyTruthy args.sha) = true
  · rw [if_pos hc] at h
    cases h
  · rw [if_neg hc] at h
    cases hn : normStage fs args (dedupe msgs) with
    | error e =>
      rw [hn] at h
      cases h
    | ok normd =>
      rw [hn] at h
      simp only [RunResult.report.injEq] at h
      obtain ⟨h1, -⟩ := h
      refine ⟨normd, rfl, ?_⟩
      rw [← h1]
      exact List.filter_sublist normd

/-- Witness for C6 (amended) on a concrete completed run. -/
theorem pipeline_output_sublist_of_norm_witness :
    ∃ out c, runPipeline noFs noRe emptyCfg
        (Args.mk FilterKind.prospector defaultRepositoryUrl (some "abc") false)
        [prosItem "b.py" 1 "m1"] = RunResult.report out c ∧
      ∃ normd, normStage noFs
          (Args.mk FilterKind.prospector defaultRepositoryUrl (some "abc") false)
          (dedupe [prosItem "b.py" 1 "m1"]) = Except.ok normd ∧ List.Sublist out normd := by
  refine ⟨_, _, rfl, pipeline_output_sublist_of_norm _ _ _ _ _ _ _ rfl⟩

/-- C10: the repository-URL default is non-empty, so every invocation that
omits the sha stops with exit code 1 before deduplication and normalization
— for every input kind and every batch (including kinds whose normalizers
never consume the repository linking inputs). -/
theorem omitted_sha_aborts_for_every_kind :
    defaultRepositoryUrl ≠ "" ∧
    ∀ (fs : Fs) (reSearch : String → String → Bool) (cfg : FilterConfig)
      (kind : FilterKind) (z : Bool) (msgs : List JVal),
      runPipeline fs reSearch cfg (Args.mk kind defaultRepositoryUrl Option.none z) msgs
        = RunResult.earlyExit 1 := by
  exact ⟨by decide, fun _ _ _ _ _ _ => rfl⟩
